import Mathlib

/-!
Verification of the `openapi2` package (file `openapi2/openapi2.go`):
the OpenAPI 2 document model, the verb dispatch table on `PathItem`,
`Swagger.AddOperation`, and the extension-preserving JSON codec used by
`SecurityScheme` (`ExtensionProps.EncodeWith` / `ExtensionProps.DecodeWith`).

The generic value tree of the object notation is modelled by `Json`; Go maps
are modelled as association lists (first binding wins on lookup); a Go nil
pointer / nil map is `Option.none` where the nil/non-nil distinction is
observable.  A Go `panic` is modelled by the `GoResult.fault` constructor.
-/

/-- Generic decoded object-notation value: null, boolean, number, string,
array, or object (a sequence of key/value members in source order).
Numbers are modelled abstractly by `Int`; no arithmetic is performed on them. -/
inductive Json where
  | null : Json
  | bool : Bool → Json
  | num : Int → Json
  | str : String → Json
  | arr : List Json → Json
  | obj : List (String × Json) → Json

/-- Result of a Go computation that may panic: `ok` carries the value,
`fault` carries the panic message. -/
inductive GoResult (α : Type) where
  | ok : α → GoResult α
  | fault : String → GoResult α
deriving Repr

/-- Modelled minimally: `openapi3.SchemaRef` is external to the file under
verification; only its presence/absence matters here. -/
structure SchemaRef where
  Ref : String := ""

/-- Modelled minimally: `openapi3.ExternalDocs` is external to the file under
verification. -/
structure ExternalDocs where
  URL : String := ""

/-- Modelled minimally: `openapi3.Info` is external to the file under
verification. -/
structure Info where
  Title : String := ""
  Version : String := ""

/-- Modelled minimally: `openapi3.Tags` is external to the file under
verification; it is treated as a sequence of generic values. -/
abbrev Tags := List Json

/-- Go struct `Header`. -/
structure Header where
  Ref : String := ""
  Description : String := ""
  Type' : String := ""

/-- Go struct `Parameter`.  Pointer-typed fields are `Option`; `float64`
payloads are modelled abstractly by `Int` (never computed with). -/
structure Parameter where
  Ref : String := ""
  In' : String := ""
  Name : String := ""
  Description : String := ""
  Required : Bool := false
  UniqueItems : Bool := false
  ExclusiveMin : Bool := false
  ExclusiveMax : Bool := false
  Schema : Option SchemaRef := none
  Type' : String := ""
  Format : String := ""
  Enum : List Json := []
  Minimum : Option Int := none
  Maximum : Option Int := none
  MinLength : Nat := 0
  MaxLength : Option Nat := none
  Pattern : String := ""
  Items : Option SchemaRef := none
  MinItems : Nat := 0
  MaxItems : Option Nat := none
  Default : Json := Json.null

/-- Go type `Parameters = []*Parameter`. -/
abbrev Parameters := List Parameter

/-- Go struct `Response`. -/
structure Response where
  Ref : String := ""
  Description : String := ""
  Schema : Option SchemaRef := none
  Headers : List (String × Header) := []
  Examples : List (String × Json) := []

/-- Go type `SecurityRequirements = []map[string][]string`. -/
abbrev SecurityRequirements := List (List (String × List String))

/-- Go struct `Operation`. -/
structure Operation where
  Summary : String := ""
  Description : String := ""
  ExternalDocs : Option ExternalDocs := none
  OpTags : List String := []
  OperationID : String := ""
  Parameters : Parameters := []
  Responses : List (String × Response) := []
  Consumes : List String := []
  Produces : List String := []
  Security : Option SecurityRequirements := none

/-- Go struct `PathItem`: a `$ref` string, one optional `Operation` slot per
supported HTTP verb, and shared parameters. -/
structure PathItem where
  Ref : String := ""
  Delete : Option Operation := none
  Get : Option Operation := none
  Head : Option Operation := none
  Options : Option Operation := none
  Patch : Option Operation := none
  Post : Option Operation := none
  Put : Option Operation := none
  Parameters : Parameters := []

/-- Go struct `Swagger` (only `Paths` carries logic; the rest is declarative).
`Paths` is a Go map that can be nil: `none` models the nil map. -/
structure Swagger where
  Info : Info := {}
  ExternalDocs : Option ExternalDocs := none
  Schemes : List String := []
  Host : String := ""
  BasePath : String := ""
  Paths : Option (List (String × PathItem)) := none
  Definitions : List (String × SchemaRef) := []
  Parameters : List (String × Parameter) := []
  Responses : List (String × Response) := []
  SecurityDefinitions : List (String × Json) := []
  Security : SecurityRequirements := []
  SwaggerTags : Tags := []

/-- The closed set of HTTP verbs handled by the dispatch switch in
`PathItem.GetOperation` / `PathItem.SetOperation`. -/
def supportedMethods : List String :=
  ["DELETE", "GET", "HEAD", "OPTIONS", "PATCH", "POST", "PUT"]

/-- An ASCII single-quote character, written by code point. -/
def squote : String := String.singleton (Char.ofNat 39)

/-- The panic message of the default switch case:
Unsupported HTTP method followed by the quoted method name. -/
def unsupportedMethodMsg (method : String) : String :=
  "Unsupported HTTP method " ++ squote ++ method ++ squote

/-- Go `PathItem.GetOperation`: switch on the method name, returning the
matching slot, panicking on any other method. -/
def PathItem.GetOperation (pathItem : PathItem) (method : String) :
    GoResult (Option Operation) :=
  if method = "DELETE" then .ok pathItem.Delete
  else if method = "GET" then .ok pathItem.Get
  else if method = "HEAD" then .ok pathItem.Head
  else if method = "OPTIONS" then .ok pathItem.Options
  else if method = "PATCH" then .ok pathItem.Patch
  else if method = "POST" then .ok pathItem.Post
  else if method = "PUT" then .ok pathItem.Put
  else .fault (unsupportedMethodMsg method)

/-- Go `PathItem.SetOperation`: switch on the method name, storing the
operation in the matching slot, panicking on any other method. -/
def PathItem.SetOperation (pathItem : PathItem) (method : String)
    (operation : Option Operation) : GoResult PathItem :=
  if method = "DELETE" then .ok { pathItem with Delete := operation }
  else if method = "GET" then .ok { pathItem with Get := operation }
  else if method = "HEAD" then .ok { pathItem with Head := operation }
  else if method = "OPTIONS" then .ok { pathItem with Options := operation }
  else if method = "PATCH" then .ok { pathItem with Patch := operation }
  else if method = "POST" then .ok { pathItem with Post := operation }
  else if method = "PUT" then .ok { pathItem with Put := operation }
  else .fault (unsupportedMethodMsg method)

/-- One conditional entry of `PathItem.Operations`: emitted iff the slot is
non-nil (translated from the `if v := ...; v != nil` blocks). -/
def optEntry (name : String) (slot : Option Operation) :
    List (String × Operation) :=
  match slot with
  | some v => [(name, v)]
  | none => []

/-- Go `PathItem.Operations`: the mapping from uppercase verb name to the
operation held in that verb's slot, for the non-nil slots only, built in the
source's check order. -/
def PathItem.Operations (pathItem : PathItem) : List (String × Operation) :=
  optEntry "DELETE" pathItem.Delete ++
  optEntry "GET" pathItem.Get ++
  optEntry "HEAD" pathItem.Head ++
  optEntry "OPTIONS" pathItem.Options ++
  optEntry "PATCH" pathItem.Patch ++
  optEntry "POST" pathItem.Post ++
  optEntry "PUT" pathItem.Put

/-- First-binding lookup in an association list modelling a Go map. -/
def lookupKey {β : Type} : List (String × β) → String → Option β
  | [], _ => none
  | (k, v) :: rest, key => if k = key then some v else lookupKey rest key

/-- Map store `m[key] = v`: replaces the existing binding, or appends a new
one. -/
def insertKey {β : Type} : List (String × β) → String → β → List (String × β)
  | [], key, v => [(key, v)]
  | (k, w) :: rest, key, v =>
    if k = key then (key, v) :: rest else (k, w) :: insertKey rest key v

/-- Go `Swagger.AddOperation`: make the `Paths` map if nil, make the
`PathItem` at `path` if absent, then `SetOperation` on it.  The mutation of
the (possibly fresh) path item is modelled by rebinding `path` to the updated
item. -/
def Swagger.AddOperation (swagger : Swagger) (path : String) (method : String)
    (operation : Option Operation) : GoResult Swagger :=
  let paths := swagger.Paths.getD []
  let pathItem := (lookupKey paths path).getD {}
  match pathItem.SetOperation method operation with
  | .fault m => .fault m
  | .ok updated => .ok { swagger with Paths := some (insertKey paths path updated) }

/-- Go struct `ExtensionProps`: the open map of extension members.  The Go
map can be nil (a freshly constructed record has a nil map): `none` models
the nil map, `some pairs` a non-nil map holding `pairs`. -/
structure ExtensionProps where
  Extensions : Option (List (String × Json)) := none

/-- Go struct `SecurityScheme`: embeds `ExtensionProps` and declares ten
fixed fields, all tagged `omitempty`.  `openapi3.Tags` is modelled as a
sequence of generic values. -/
structure SecurityScheme where
  Props : ExtensionProps := {}
  Ref : String := ""
  Description : String := ""
  Type' : String := ""
  In' : String := ""
  Name : String := ""
  Flow : String := ""
  AuthorizationURL : String := ""
  TokenURL : String := ""
  Scopes : List (String × String) := []
  SchemeTags : Tags := []

/-- The declared wire names of the fixed fields of `SecurityScheme`, in
declaration order. -/
def securitySchemeFieldNames : List String :=
  ["$ref", "description", "type", "in", "name", "flow",
   "authorizationUrl", "tokenUrl", "scopes", "tags"]

/-- The extension members of a `SecurityScheme` as a list of pairs (the
empty set when the map is nil). -/
def SecurityScheme.extensionPairs (ss : SecurityScheme) :
    List (String × Json) :=
  ss.Props.Extensions.getD []

/-- Modelled from the spec: the `jsoninfo` encoder of the declared struct
fields (`ObjectEncoder.EncodeStructFieldsAndExtensions`) is not under `src/`.
Each fixed field is written under its declared wire name in declaration
order, skipping a field whose value is the empty sentinel for its type
(empty string, zero-length sequence, zero-length map), since every fixed
field of `SecurityScheme` is tagged `omitempty`. -/
def encodeStructFields (ss : SecurityScheme) : List (String × Json) :=
  (if ss.Ref = "" then [] else [("$ref", Json.str ss.Ref)]) ++
  (if ss.Description = "" then [] else [("description", Json.str ss.Description)]) ++
  (if ss.Type' = "" then [] else [("type", Json.str ss.Type')]) ++
  (if ss.In' = "" then [] else [("in", Json.str ss.In')]) ++
  (if ss.Name = "" then [] else [("name", Json.str ss.Name)]) ++
  (if ss.Flow = "" then [] else [("flow", Json.str ss.Flow)]) ++
  (if ss.AuthorizationURL = "" then []
   else [("authorizationUrl", Json.str ss.AuthorizationURL)]) ++
  (if ss.TokenURL = "" then [] else [("tokenUrl", Json.str ss.TokenURL)]) ++
  (if ss.Scopes = [] then []
   else [("scopes", Json.obj (ss.Scopes.map (fun kv => (kv.1, Json.str kv.2))))]) ++
  (if ss.SchemeTags.isEmpty then []
   else [("tags", Json.arr ss.SchemeTags)])

/-- Go `ExtensionProps.EncodeWith`, driving `SecurityScheme.MarshalJSON`
(`jsoninfo.MarshalStrictStruct`): first each extension member is written by
`encoder.EncodeExtension`, then the declared struct fields follow.  The
output object is modelled as its member list in emission order; the final
rendering of that list to bytes is the external primitive encoder. -/
def SecurityScheme.MarshalJSON (ss : SecurityScheme) : List (String × Json) :=
  ss.extensionPairs ++ encodeStructFields ss

/-- Decode error: a fixed field whose wire value has the wrong shape
(`FieldTypeError` naming the field and the expected type). -/
inductive DecodeError where
  | fieldTypeError : String → String → DecodeError
deriving Repr

/-- The fixed fields of `SecurityScheme` as decoded by the struct-field pass,
before the extension map is attached. -/
structure FixedFields where
  Ref : String := ""
  Description : String := ""
  Type' : String := ""
  In' : String := ""
  Name : String := ""
  Flow : String := ""
  AuthorizationURL : String := ""
  TokenURL : String := ""
  Scopes : List (String × String) := []
  SchemeTags : Tags := []

/-- Modelled from the spec: decode one string-typed fixed field from its
looked-up wire value; an absent member leaves the zero value, a non-string
value is a `FieldTypeError`. -/
def decodeStringField (name : String) : Option Json → Except DecodeError String
  | none => .ok ""
  | some (Json.str s) => .ok s
  | some _ => .error (.fieldTypeError name "string")

/-- Modelled from the spec: decode the members of a `map[string]string`
wire object, requiring every value to be a string. -/
def decodeStringPairs (name : String) :
    List (String × Json) → Except DecodeError (List (String × String))
  | [] => .ok []
  | (k, Json.str v) :: rest =>
    match decodeStringPairs name rest with
    | .ok tail => .ok ((k, v) :: tail)
    | .error e => .error e
  | (_, _) :: _ => .error (.fieldTypeError name "string")

/-- Modelled from the spec: decode the `scopes` fixed field (a
`map[string]string`); absent leaves the zero value (nil map, modelled as the
empty list), a non-object value is a `FieldTypeError`. -/
def decodeScopesField (name : String) :
    Option Json → Except DecodeError (List (String × String))
  | none => .ok []
  | some (Json.obj kvs) => decodeStringPairs name kvs
  | some _ => .error (.fieldTypeError name "object")

/-- Modelled from the spec: decode the `tags` fixed field (external
`openapi3.Tags`, modelled as a sequence of generic values); absent leaves
the zero value, a non-array value is a `FieldTypeError`. -/
def decodeTagsField (name : String) : Option Json → Except DecodeError Tags
  | none => .ok ([] : List Json)
  | some (Json.arr vs) => .ok vs
  | some _ => .error (.fieldTypeError name "array")

/-- Modelled from the spec: the `jsoninfo` struct-field decoding pass
(`ObjectDecoder.DecodeStructFieldsAndExtensions`) is not under `src/`.  For
each declared fixed field, when its wire name is present among the object's
keys the value is decoded into the field's type (a mismatch is a
`FieldTypeError`); an absent wire name leaves the field's zero value. -/
def decodeStructFields (obj : List (String × Json)) :
    Except DecodeError FixedFields := do
  let ref ← decodeStringField "$ref" (lookupKey obj "$ref")
  let description ← decodeStringField "description" (lookupKey obj "description")
  let type' ← decodeStringField "type" (lookupKey obj "type")
  let in' ← decodeStringField "in" (lookupKey obj "in")
  let name ← decodeStringField "name" (lookupKey obj "name")
  let flow ← decodeStringField "flow" (lookupKey obj "flow")
  let authorizationURL ←
    decodeStringField "authorizationUrl" (lookupKey obj "authorizationUrl")
  let tokenURL ← decodeStringField "tokenUrl" (lookupKey obj "tokenUrl")
  let scopes ← decodeScopesField "scopes" (lookupKey obj "scopes")
  let tags ← decodeTagsField "tags" (lookupKey obj "tags")
  pure { Ref := ref, Description := description, Type' := type', In' := in',
         Name := name, Flow := flow, AuthorizationURL := authorizationURL,
         TokenURL := tokenURL, Scopes := scopes, SchemeTags := tags }

/-- Modelled from the spec: `ObjectDecoder.DecodeExtensionMap` returns the
leftover members, i.e. every member whose key is not the wire name of a
declared fixed field, in source order. -/
def decodeExtensionMap (obj : List (String × Json)) : List (String × Json) :=
  obj.filter (fun kv => !(securitySchemeFieldNames.contains kv.1))

/-- The entry-by-entry copy loop of `ExtensionProps.DecodeWith`
(`result := make(...); for k, v := range source ...`): builds a fresh map
holding the same entries as the source. -/
def copyEntries : List (String × Json) → List (String × Json)
  | [] => []
  | kv :: rest => kv :: copyEntries rest

/-- Go `ExtensionProps.DecodeWith`, driving `SecurityScheme.UnmarshalJSON`
(`jsoninfo.UnmarshalStrictStruct`): first the declared struct fields are
decoded (propagating any error), then the leftover members are copied into a
fresh non-nil map assigned to `Extensions`.  The input object is the member
list produced by the external primitive decoder. -/
def SecurityScheme.UnmarshalJSON (obj : List (String × Json)) :
    Except DecodeError SecurityScheme :=
  match decodeStructFields obj with
  | .error e => .error e
  | .ok f =>
    .ok { Props := { Extensions := some (copyEntries (decodeExtensionMap obj)) },
          Ref := f.Ref, Description := f.Description, Type' := f.Type',
          In' := f.In', Name := f.Name, Flow := f.Flow,
          AuthorizationURL := f.AuthorizationURL, TokenURL := f.TokenURL,
          Scopes := f.Scopes, SchemeTags := f.SchemeTags }

/-- A concrete security scheme with one extension member, used as witness
input. -/
def sampleScheme : SecurityScheme :=
  { Props := { Extensions := some [("x-foo", Json.str "bar")] },
    Type' := "basic" }

/-- A concrete wire object with one fixed-field member and no extension
members, used as witness input. -/
def sampleObj : List (String × Json) := [("type", Json.str "basic")]

/-! ### Helper lemmas about the extension codec -/

/-- The entry-by-entry copy loop reproduces its source exactly. -/
theorem copyEntries_eq (l : List (String × Json)) : copyEntries l = l := by
  induction l with
  | nil => rfl
  | cons kv rest ih => simp [copyEntries, ih]

/-- Lookup skips a prefix none of whose keys is the looked-up key. -/
theorem lookupKey_append_of_ne {β : Type} (l1 l2 : List (String × β))
    (k : String) (h : ∀ kv ∈ l1, kv.1 ≠ k) :
    lookupKey (l1 ++ l2) k = lookupKey l2 k := by
  induction l1 with
  | nil => rfl
  | cons kv rest ih =>
    obtain ⟨k1, v1⟩ := kv
    have hne : k1 ≠ k := h (k1, v1) (by simp)
    simp only [List.cons_append, lookupKey, if_neg hne]
    exact ih (fun kv hkv => h kv (by simp [hkv]))

/-- Lookup ignores one inserted member with a different key. -/
theorem lookupKey_middle {β : Type} (l1 l2 : List (String × β))
    (k key : String) (v : β) (h : k ≠ key) :
    lookupKey (l1 ++ (k, v) :: l2) key = lookupKey (l1 ++ l2) key := by
  induction l1 with
  | nil => simp [lookupKey, h]
  | cons kv rest ih =>
    obtain ⟨k1, v1⟩ := kv
    by_cases h1 : k1 = key <;> simp [lookupKey, h1, ih]

/-- Lookup skips one conditionally emitted member with a different key. -/
theorem lookupKey_skip_block {β : Type} {c : Prop} [Decidable c] (n : String)
    (v : β) (rest : List (String × β)) (k : String) (h : n ≠ k) :
    lookupKey ((if c then [] else [(n, v)]) ++ rest) k = lookupKey rest k := by
  split <;> simp [lookupKey, h]

/-- Lookup of a conditionally emitted member's own key at the head. -/
theorem lookupKey_hit_block {β : Type} {c : Prop} [Decidable c] (n : String)
    (v : β) (rest : List (String × β)) :
    lookupKey ((if c then [] else [(n, v)]) ++ rest) n =
      if c then lookupKey rest n else some v := by
  split <;> simp [lookupKey]

/-- Lookup of a different key in one terminal conditionally emitted member. -/
theorem lookupKey_block_ne {β : Type} {c : Prop} [Decidable c] (n : String)
    (v : β) (k : String) (h : n ≠ k) :
    lookupKey (if c then [] else [(n, v)]) k = none := by
  split <;> simp [lookupKey, h]

/-- Lookup of a terminal conditionally emitted member's own key. -/
theorem lookupKey_hit_terminal {β : Type} {c : Prop} [Decidable c]
    (n : String) (v : β) :
    lookupKey (if c then [] else [(n, v)]) n = if c then none else some v := by
  split <;> simp [lookupKey]

/-- Decoding an omit-if-empty string field from its encoded form recovers
the field. -/
theorem decodeStringField_ite (name s : String) :
    decodeStringField name (if s = "" then none else some (Json.str s)) =
      .ok s := by
  split
  · next h => simp [decodeStringField, h]
  · rfl

/-- Decoding the encoded members of a string-valued map recovers the map. -/
theorem decodeStringPairs_map (name : String) (l : List (String × String)) :
    decodeStringPairs name (l.map (fun kv => (kv.1, Json.str kv.2))) =
      .ok l := by
  induction l with
  | nil => rfl
  | cons kv rest ih =>
    obtain ⟨k, v⟩ := kv
    simp [decodeStringPairs, ih]

/-- Decoding the omit-if-empty scopes field from its encoded form recovers
the field. -/
theorem decodeScopesField_ite (name : String) (l : List (String × String)) :
    decodeScopesField name
      (if l = [] then none
       else some (Json.obj (l.map (fun kv => (kv.1, Json.str kv.2))))) =
      .ok l := by
  split
  · next h => subst h; rfl
  · simp [decodeScopesField, decodeStringPairs_map]

/-- Decoding the omit-if-empty tags field from its encoded form recovers the
field. -/
theorem decodeTagsField_ite (name : String) (l : Tags) :
    decodeTagsField name (if l.isEmpty then none else some (Json.arr l)) =
      .ok l := by
  split
  · next h => rw [List.isEmpty_iff.mp h]; rfl
  · rfl

/-- Lookup of the `$ref` wire name in the encoded fixed fields. -/
theorem lookup_enc_ref (ss : SecurityScheme) :
    lookupKey (encodeStructFields ss) "$ref" =
      if ss.Ref = "" then none else some (Json.str ss.Ref) := by
  unfold encodeStructFields
  simp only [List.append_assoc]
  rw [lookupKey_hit_block,
    lookupKey_skip_block _ _ _ _ (by decide), lookupKey_skip_block _ _ _ _ (by decide),
    lookupKey_skip_block _ _ _ _ (by decide), lookupKey_skip_block _ _ _ _ (by decide),
    lookupKey_skip_block _ _ _ _ (by decide), lookupKey_skip_block _ _ _ _ (by decide),
    lookupKey_skip_block _ _ _ _ (by decide), lookupKey_skip_block _ _ _ _ (by decide),
    lookupKey_block_ne _ _ _ (by decide)]

/-- Lookup of the `description` wire name in the encoded fixed fields. -/
theorem lookup_enc_description (ss : SecurityScheme) :
    lookupKey (encodeStructFields ss) "description" =
      if ss.Description = "" then none else some (Json.str ss.Description) := by
  unfold encodeStructFields
  simp only [List.append_assoc]
  rw [lookupKey_skip_block _ _ _ _ (by decide), lookupKey_hit_block,
    lookupKey_skip_block _ _ _ _ (by decide), lookupKey_skip_block _ _ _ _ (by decide),
    lookupKey_skip_block _ _ _ _ (by decide), lookupKey_skip_block _ _ _ _ (by decide),
    lookupKey_skip_block _ _ _ _ (by decide), lookupKey_skip_block _ _ _ _ (by decide),
    lookupKey_skip_block _ _ _ _ (by decide), lookupKey_block_ne _ _ _ (by decide)]

/-- Lookup of the `type` wire name in the encoded fixed fields. -/
theorem lookup_enc_type (ss : SecurityScheme) :
    lookupKey (encodeStructFields ss) "type" =
      if ss.Type' = "" then none else some (Json.str ss.Type') := by
  unfold encodeStructFields
  simp only [List.append_assoc]
  rw [lookupKey_skip_block _ _ _ _ (by decide), lookupKey_skip_block _ _ _ _ (by decide),
    lookupKey_hit_block,
    lookupKey_skip_block _ _ _ _ (by decide), lookupKey_skip_block _ _ _ _ (by decide),
    lookupKey_skip_block _ _ _ _ (by decide), lookupKey_skip_block _ _ _ _ (by decide),
    lookupKey_skip_block _ _ _ _ (by decide), lookupKey_skip_block _ _ _ _ (by decide),
    lookupKey_block_ne _ _ _ (by decide)]

/-- Lookup of the `in` wire name in the encoded fixed fields. -/
theorem lookup_enc_in (ss : SecurityScheme) :
    lookupKey (encodeStructFields ss) "in" =
      if ss.In' = "" then none else some (Json.str ss.In') := by
  unfold encodeStructFields
  simp only [List.append_assoc]
  rw [lookupKey_skip_block _ _ _ _ (by decide), lookupKey_skip_block _ _ _ _ (by decide),
    lookupKey_skip_block _ _ _ _ (by decide), lookupKey_hit_block,
    lookupKey_skip_block _ _ _ _ (by decide), lookupKey_skip_block _ _ _ _ (by decide),
    lookupKey_skip_block _ _ _ _ (by decide), lookupKey_skip_block _ _ _ _ (by decide),
    lookupKey_skip_block _ _ _ _ (by decide), lookupKey_block_ne _ _ _ (by decide)]

/-- Lookup of the `name` wire name in the encoded fixed fields. -/
theorem lookup_enc_name (ss : SecurityScheme) :
    lookupKey (encodeStructFields ss) "name" =
      if ss.Name = "" then none else some (Json.str ss.Name) := by
  unfold encodeStructFields
  simp only [List.append_assoc]
  rw [lookupKey_skip_block _ _ _ _ (by decide), lookupKey_skip_block _ _ _ _ (by decide),
    lookupKey_skip_block _ _ _ _ (by decide), lookupKey_skip_block _ _ _ _ (by decide),
    lookupKey_hit_block,
    lookupKey_skip_block _ _ _ _ (by decide), lookupKey_skip_block _ _ _ _ (by decide),
    lookupKey_skip_block _ _ _ _ (by decide), lookupKey_skip_block _ _ _ _ (by decide),
    lookupKey_block_ne _ _ _ (by decide)]

/-- Lookup of the `flow` wire name in the encoded fixed fields. -/
theorem lookup_enc_flow (ss : SecurityScheme) :
    lookupKey (encodeStructFields ss) "flow" =
      if ss.Flow = "" then none else some (Json.str ss.Flow) := by
  unfold encodeStructFields
  simp only [List.append_assoc]
  rw [lookupKey_skip_block _ _ _ _ (by decide), lookupKey_skip_block _ _ _ _ (by decide),
    lookupKey_skip_block _ _ _ _ (by decide), lookupKey_skip_block _ _ _ _ (by decide),
    lookupKey_skip_block _ _ _ _ (by decide), lookupKey_hit_block,
    lookupKey_skip_block _ _ _ _ (by decide), lookupKey_skip_block _ _ _ _ (by decide),
    lookupKey_skip_block _ _ _ _ (by decide), lookupKey_block_ne _ _ _ (by decide)]

/-- Lookup of the `authorizationUrl` wire name in the encoded fixed
fields. -/
theorem lookup_enc_authorizationUrl (ss : SecurityScheme) :
    lookupKey (encodeStructFields ss) "authorizationUrl" =
      if ss.AuthorizationURL = "" then none
      else some (Json.str ss.AuthorizationURL) := by
  unfold encodeStructFields
  simp only [List.append_assoc]
  rw [lookupKey_skip_block _ _ _ _ (by decide), lookupKey_skip_block _ _ _ _ (by decide),
    lookupKey_skip_block _ _ _ _ (by decide), lookupKey_skip_block _ _ _ _ (by decide),
    lookupKey_skip_block _ _ _ _ (by decide), lookupKey_skip_block _ _ _ _ (by decide),
    lookupKey_hit_block,
    lookupKey_skip_block _ _ _ _ (by decide), lookupKey_skip_block _ _ _ _ (by decide),
    lookupKey_block_ne _ _ _ (by decide)]

/-- Lookup of the `tokenUrl` wire name in the encoded fixed fields. -/
theorem lookup_enc_tokenUrl (ss : SecurityScheme) :
    lookupKey (encodeStructFields ss) "tokenUrl" =
      if ss.TokenURL = "" then none else some (Json.str ss.TokenURL) := by
  unfold encodeStructFields
  simp only [List.append_assoc]
  rw [lookupKey_skip_block _ _ _ _ (by decide), lookupKey_skip_block _ _ _ _ (by decide),
    lookupKey_skip_block _ _ _ _ (by decide), lookupKey_skip_block _ _ _ _ (by decide),
    lookupKey_skip_block _ _ _ _ (by decide), lookupKey_skip_block _ _ _ _ (by decide),
    lookupKey_skip_block _ _ _ _ (by decide), lookupKey_hit_block,
    lookupKey_skip_block _ _ _ _ (by decide), lookupKey_block_ne _ _ _ (by decide)]

/-- Lookup of the `scopes` wire name in the encoded fixed fields. -/
theorem lookup_enc_scopes (ss : SecurityScheme) :
    lookupKey (encodeStructFields ss) "scopes" =
      if ss.Scopes = [] then none
      else some (Json.obj (ss.Scopes.map (fun kv => (kv.1, Json.str kv.2)))) := by
  unfold encodeStructFields
  simp only [List.append_assoc]
  rw [lookupKey_skip_block _ _ _ _ (by decide), lookupKey_skip_block _ _ _ _ (by decide),
    lookupKey_skip_block _ _ _ _ (by decide), lookupKey_skip_block _ _ _ _ (by decide),
    lookupKey_skip_block _ _ _ _ (by decide), lookupKey_skip_block _ _ _ _ (by decide),
    lookupKey_skip_block _ _ _ _ (by decide), lookupKey_skip_block _ _ _ _ (by decide),
    lookupKey_hit_block, lookupKey_block_ne _ _ _ (by decide)]

/-- Lookup of the `tags` wire name in the encoded fixed fields. -/
theorem lookup_enc_tags (ss : SecurityScheme) :
    lookupKey (encodeStructFields ss) "tags" =
      if ss.SchemeTags.isEmpty then none else some (Json.arr ss.SchemeTags) := by
  unfold encodeStructFields
  simp only [List.append_assoc]
  rw [lookupKey_skip_block _ _ _ _ (by decide), lookupKey_skip_block _ _ _ _ (by decide),
    lookupKey_skip_block _ _ _ _ (by decide), lookupKey_skip_block _ _ _ _ (by decide),
    lookupKey_skip_block _ _ _ _ (by decide), lookupKey_skip_block _ _ _ _ (by decide),
    lookupKey_skip_block _ _ _ _ (by decide), lookupKey_skip_block _ _ _ _ (by decide),
    lookupKey_skip_block _ _ _ _ (by decide), lookupKey_hit_terminal]

/-- Membership in one conditionally emitted member determines the member. -/
theorem mem_block {β : Type} {c : Prop} [Decidable c] {kv : String × β}
    {n : String} {v : β}
    (h : kv ∈ (if c then ([] : List (String × β)) else [(n, v)])) :
    kv = (n, v) := by
  split at h
  · simp at h
  · simpa using h

/-- Every member the fixed-field encoder emits carries a declared wire
name. -/
theorem encodeStructFields_keys (ss : SecurityScheme) :
    ∀ kv ∈ encodeStructFields ss, kv.1 ∈ securitySchemeFieldNames := by
  intro kv h
  unfold encodeStructFields at h
  simp only [List.append_assoc, List.mem_append] at h
  rcases h with h | h | h | h | h | h | h | h | h | h <;>
    rw [mem_block h] <;> simp [securitySchemeFieldNames]

/-! ### Helper lemmas about the verb dispatch table -/

/-- Membership in the supported-method list, unfolded to a disjunction. -/
theorem mem_supported_iff (v : String) :
    v ∈ supportedMethods ↔
      v = "DELETE" ∨ v = "GET" ∨ v = "HEAD" ∨ v = "OPTIONS" ∨
      v = "PATCH" ∨ v = "POST" ∨ v = "PUT" := by
  simp [supportedMethods]

/-- Setting a supported verb succeeds, and reading the same verb back on the
updated item returns the stored operation. -/
theorem setOperation_then_getOperation (pathItem : PathItem)
    (operation : Option Operation) {v : String} (hv : v ∈ supportedMethods) :
    ∃ updated, pathItem.SetOperation v operation = .ok updated ∧
      updated.GetOperation v = .ok operation := by
  rw [mem_supported_iff] at hv
  rcases hv with rfl | rfl | rfl | rfl | rfl | rfl | rfl <;> exact ⟨_, rfl, rfl⟩

/-- Membership in one conditional entry of `PathItem.Operations`. -/
theorem mem_optEntry {n name : String} {op : Operation}
    {slot : Option Operation} :
    (n, op) ∈ optEntry name slot ↔ n = name ∧ slot = some op := by
  cases slot with
  | none => simp [optEntry]
  | some v =>
    simp only [optEntry, List.mem_singleton, Prod.mk.injEq, Option.some.injEq]
    constructor
    · rintro ⟨rfl, rfl⟩; exact ⟨rfl, rfl⟩
    · rintro ⟨rfl, rfl⟩; exact ⟨rfl, rfl⟩

/-- Storing into the association-list model of a Go map and looking the same
key up returns the stored value. -/
theorem lookupKey_insertKey_self {β : Type} (l : List (String × β))
    (k : String) (v : β) : lookupKey (insertKey l k v) k = some v := by
  induction l with
  | nil => simp [insertKey, lookupKey]
  | cons kv rest ih =>
    obtain ⟨k1, v1⟩ := kv
    by_cases h : k1 = k
    · simp [insertKey, h, lookupKey]
    · simp [insertKey, h, lookupKey, ih]

/-! ### Claims about the verb dispatch table -/

/-- C3: for each of the seven supported verbs v in DELETE, GET, HEAD,
OPTIONS, PATCH, POST, PUT and every operation, calling `SetOperation v op`
on a `PathItem` and then `GetOperation v` on the resulting item returns
`op`. -/
theorem setOperation_getOperation_roundtrip (pathItem : PathItem)
    (operation : Option Operation) {v : String} (hv : v ∈ supportedMethods) :
    ∃ updated, pathItem.SetOperation v operation = .ok updated ∧
      updated.GetOperation v = .ok operation :=
  setOperation_then_getOperation pathItem operation hv

/-- Witness for C3 at verb GET on the zero `PathItem`. -/
theorem setOperation_getOperation_roundtrip_witness :
    "GET" ∈ supportedMethods ∧
    ∃ updated, PathItem.SetOperation {} "GET" (some {}) = .ok updated ∧
      updated.GetOperation "GET" = .ok (some {}) :=
  ⟨by decide, setOperation_getOperation_roundtrip {} (some {}) (by decide)⟩

/-- C5: calling `GetOperation` or `SetOperation` with a verb outside the
closed set DELETE, GET, HEAD, OPTIONS, PATCH, POST, PUT panics with a
message naming the unsupported method, rather than silently doing nothing
or returning a recoverable error value. -/
theorem unsupportedMethod_fault (pathItem : PathItem)
    (operation : Option Operation) (v : String)
    (hv : v ∉ supportedMethods) :
    pathItem.GetOperation v =
      .fault ("Unsupported HTTP method " ++ squote ++ v ++ squote) ∧
    pathItem.SetOperation v operation =
      .fault ("Unsupported HTTP method " ++ squote ++ v ++ squote) := by
  rw [mem_supported_iff] at hv
  push_neg at hv
  obtain ⟨h1, h2, h3, h4, h5, h6, h7⟩ := hv
  constructor <;>
    simp [PathItem.GetOperation, PathItem.SetOperation, unsupportedMethodMsg,
      h1, h2, h3, h4, h5, h6, h7]

/-- Witness for C5 at verb TRACE on the zero `PathItem`. -/
theorem unsupportedMethod_fault_witness :
    "TRACE" ∉ supportedMethods ∧
    (PathItem.GetOperation {} "TRACE" =
       .fault ("Unsupported HTTP method " ++ squote ++ "TRACE" ++ squote) ∧
     PathItem.SetOperation {} "TRACE" none =
       .fault ("Unsupported HTTP method " ++ squote ++ "TRACE" ++ squote)) :=
  ⟨by decide, unsupportedMethod_fault {} none "TRACE" (by decide)⟩

/-- C7: `SetOperation` on a supported verb modifies only that verb's slot:
the `Ref` field, the `Parameters` field, and every other verb slot read the
same after the call as before. -/
theorem setOperation_frame (pathItem : PathItem)
    (operation : Option Operation) (v : String)
    (hv : v ∈ supportedMethods) (updated : PathItem)
    (hset : pathItem.SetOperation v operation = .ok updated) :
    updated.Ref = pathItem.Ref ∧
    updated.Parameters = pathItem.Parameters ∧
    ∀ w ∈ supportedMethods, w ≠ v →
      updated.GetOperation w = pathItem.GetOperation w := by
  rw [mem_supported_iff] at hv
  rcases hv with rfl | rfl | rfl | rfl | rfl | rfl | rfl <;>
  · injection hset with h
    subst h
    refine ⟨rfl, rfl, ?_⟩
    intro w hw hne
    rw [mem_supported_iff] at hw
    rcases hw with rfl | rfl | rfl | rfl | rfl | rfl | rfl <;>
      first | exact absurd rfl hne | rfl

/-- Witness for C7 at verb GET on the zero `PathItem`. -/
theorem setOperation_frame_witness :
    ("GET" ∈ supportedMethods ∧
     PathItem.SetOperation {} "GET" (some {}) =
       .ok { Get := some ({} : Operation) }) ∧
    (PathItem.Ref { Get := some ({} : Operation) } = PathItem.Ref {} ∧
     PathItem.Parameters { Get := some ({} : Operation) } =
       PathItem.Parameters {} ∧
     ∀ w ∈ supportedMethods, w ≠ "GET" →
       PathItem.GetOperation { Get := some ({} : Operation) } w =
         PathItem.GetOperation {} w) :=
  ⟨⟨by decide, rfl⟩,
   setOperation_frame {} (some {}) "GET" (by decide)
     { Get := some ({} : Operation) } rfl⟩

/-- C8 counterexample: TRACE is one of the eight standard HTTP request
methods, yet the dispatch table faults on it for both read and write, so the
table does not map each of the eight standard methods to a slot. -/
theorem eightMethods_counterexample :
    ({} : PathItem).GetOperation "TRACE" =
      .fault ("Unsupported HTTP method " ++ squote ++ "TRACE" ++ squote) ∧
    ({} : PathItem).SetOperation "TRACE" (some {}) =
      .fault ("Unsupported HTTP method " ++ squote ++ "TRACE" ++ squote) :=
  ⟨rfl, rfl⟩

/-- C8 amended: the verb-keyed lookup/store table on a path entry maps each
of the SEVEN supported HTTP methods DELETE, GET, HEAD, OPTIONS, PATCH, POST,
PUT to a typed operation slot that `GetOperation`/`SetOperation` can read
and write without faulting. -/
theorem sevenMethods_slots (v : String) (hv : v ∈ supportedMethods)
    (pathItem : PathItem) (operation : Option Operation) :
    (∃ slot, pathItem.GetOperation v = .ok slot) ∧
    (∃ updated, pathItem.SetOperation v operation = .ok updated) := by
  rw [mem_supported_iff] at hv
  rcases hv with rfl | rfl | rfl | rfl | rfl | rfl | rfl <;>
    exact ⟨⟨_, rfl⟩, ⟨_, rfl⟩⟩

/-- Witness for the amended C8 at verb OPTIONS on the zero `PathItem`. -/
theorem sevenMethods_slots_witness :
    "OPTIONS" ∈ supportedMethods ∧
    ((∃ slot, PathItem.GetOperation {} "OPTIONS" = .ok slot) ∧
     (∃ updated, PathItem.SetOperation {} "OPTIONS" none = .ok updated)) :=
  ⟨by decide, sevenMethods_slots "OPTIONS" (by decide) {} none⟩

/-- C4: the mapping produced by `Operations` holds exactly the uppercase
names of the verb slots currently holding an operation, each bound to that
slot's operation; in particular, after setting only GET to opA and POST to
opB the result is the two-entry mapping GET to opA, POST to opB. -/
theorem operations_characterization (pathItem : PathItem) :
    (∀ n op, (n, op) ∈ pathItem.Operations ↔
      (n = "DELETE" ∧ pathItem.Delete = some op) ∨
      (n = "GET" ∧ pathItem.Get = some op) ∨
      (n = "HEAD" ∧ pathItem.Head = some op) ∨
      (n = "OPTIONS" ∧ pathItem.Options = some op) ∨
      (n = "PATCH" ∧ pathItem.Patch = some op) ∨
      (n = "POST" ∧ pathItem.Post = some op) ∨
      (n = "PUT" ∧ pathItem.Put = some op)) ∧
    (∀ opA opB : Operation, ∃ p1 p2 : PathItem,
      PathItem.SetOperation {} "GET" (some opA) = .ok p1 ∧
      p1.SetOperation "POST" (some opB) = .ok p2 ∧
      p2.Operations = [("GET", opA), ("POST", opB)]) := by
  constructor
  · intro n op
    simp only [PathItem.Operations, List.mem_append, mem_optEntry, or_assoc]
  · intro opA opB
    exact ⟨_, _, rfl, rfl, rfl⟩

/-- C6: `AddOperation` makes the `Paths` map non-nil, binds the given path
to a path item (fresh if the path was absent, the prior item otherwise)
whose slot for the verb holds the given operation, and a second call at the
same path and verb overwrites, leaving the later operation there. -/
theorem addOperation_spec (s : Swagger) (path v : String)
    (opA opB : Option Operation) (hv : v ∈ supportedMethods) :
    (∃ s' m item, s.AddOperation path v opA = .ok s' ∧ s'.Paths = some m ∧
      lookupKey m path = some item ∧
      ((lookupKey (s.Paths.getD []) path).getD {}).SetOperation v opA =
        .ok item ∧
      item.GetOperation v = .ok opA) ∧
    (∀ s' s'', s.AddOperation path v opA = .ok s' →
      s'.AddOperation path v opB = .ok s'' →
      ∃ m item, s''.Paths = some m ∧ lookupKey m path = some item ∧
        item.GetOperation v = .ok opB) := by
  obtain ⟨item, hset, hget⟩ :=
    setOperation_then_getOperation ((lookupKey (s.Paths.getD []) path).getD {})
      opA hv
  constructor
  · have hadd : s.AddOperation path v opA =
        .ok { s with Paths := some (insertKey (s.Paths.getD []) path item) } := by
      simp only [Swagger.AddOperation, hset]
    exact ⟨_, _, item, hadd, rfl, lookupKey_insertKey_self _ _ _, hset, hget⟩
  · intro s' s'' h1 h2
    simp only [Swagger.AddOperation, hset] at h1
    injection h1 with h1
    subst h1
    obtain ⟨item2, hset2, hget2⟩ := setOperation_then_getOperation item opB hv
    simp only [Swagger.AddOperation, Option.getD_some,
      lookupKey_insertKey_self, hset2] at h2
    injection h2 with h2
    subst h2
    exact ⟨_, item2, rfl, lookupKey_insertKey_self _ _ _, hget2⟩

/-- Witness for C6 on the zero `Swagger` (nil `Paths` map), path /users,
verb GET. -/
theorem addOperation_spec_witness :
    "GET" ∈ supportedMethods ∧
    ((∃ s' m item,
        Swagger.AddOperation {} "/users" "GET" (some {}) = .ok s' ∧
        s'.Paths = some m ∧ lookupKey m "/users" = some item ∧
        ((lookupKey (Swagger.Paths {} |>.getD []) "/users").getD
            {}).SetOperation "GET" (some {}) = .ok item ∧
        item.GetOperation "GET" = .ok (some {})) ∧
     (∀ s' s'', Swagger.AddOperation {} "/users" "GET" (some {}) = .ok s' →
        s'.AddOperation "/users" "GET" none = .ok s'' →
        ∃ m item, s''.Paths = some m ∧ lookupKey m "/users" = some item ∧
          item.GetOperation "GET" = .ok none)) :=
  ⟨by decide, addOperation_spec {} "/users" "GET" (some {}) none (by decide)⟩

/-! ### Claims about the extension codec -/

/-- Decoding the declared fixed fields of an encoded record recovers every
fixed field, when no extension key collides with a declared wire name. -/
theorem decodeStructFields_marshalJSON (ss : SecurityScheme)
    (hext : ∀ kv ∈ ss.extensionPairs, kv.1 ∉ securitySchemeFieldNames) :
    decodeStructFields ss.MarshalJSON =
      .ok { Ref := ss.Ref, Description := ss.Description, Type' := ss.Type',
            In' := ss.In', Name := ss.Name, Flow := ss.Flow,
            AuthorizationURL := ss.AuthorizationURL, TokenURL := ss.TokenURL,
            Scopes := ss.Scopes, SchemeTags := ss.SchemeTags } := by
  have hx : ∀ n ∈ securitySchemeFieldNames,
      lookupKey ss.MarshalJSON n = lookupKey (encodeStructFields ss) n := by
    intro n hn
    exact lookupKey_append_of_ne _ _ _ (fun kv hkv he => hext kv hkv (he ▸ hn))
  unfold decodeStructFields
  rw [hx "$ref" (by decide), hx "description" (by decide),
    hx "type" (by decide), hx "in" (by decide), hx "name" (by decide),
    hx "flow" (by decide), hx "authorizationUrl" (by decide),
    hx "tokenUrl" (by decide), hx "scopes" (by decide), hx "tags" (by decide),
    lookup_enc_ref, lookup_enc_description, lookup_enc_type, lookup_enc_in,
    lookup_enc_name, lookup_enc_flow, lookup_enc_authorizationUrl,
    lookup_enc_tokenUrl, lookup_enc_scopes, lookup_enc_tags,
    decodeStringField_ite, decodeStringField_ite, decodeStringField_ite,
    decodeStringField_ite, decodeStringField_ite, decodeStringField_ite,
    decodeStringField_ite, decodeStringField_ite,
    decodeScopesField_ite, decodeTagsField_ite]
  rfl

/-- The leftover-member computation on an encoded record returns exactly the
record's extension members, when no extension key collides with a declared
wire name. -/
theorem decodeExtensionMap_marshalJSON (ss : SecurityScheme)
    (hext : ∀ kv ∈ ss.extensionPairs, kv.1 ∉ securitySchemeFieldNames) :
    decodeExtensionMap ss.MarshalJSON = ss.extensionPairs := by
  unfold decodeExtensionMap SecurityScheme.MarshalJSON
  rw [List.filter_append]
  have h1 : ss.extensionPairs.filter
      (fun kv => !(securitySchemeFieldNames.contains kv.1)) =
      ss.extensionPairs := by
    apply List.filter_eq_self.mpr
    intro kv hkv
    simpa using hext kv hkv
  have h2 : (encodeStructFields ss).filter
      (fun kv => !(securitySchemeFieldNames.contains kv.1)) = [] := by
    apply List.filter_eq_nil_iff.mpr
    intro kv hkv
    simpa using encodeStructFields_keys ss kv hkv
  rw [h1, h2, List.append_nil]

/-- C1: decoding the bytes produced by `MarshalJSON` via `UnmarshalJSON`
yields a record equal to the original as a value — every fixed field equal
and the Extensions mapping holding the same key/value pairs — whenever no
extension key collides with a declared fixed-field wire name. -/
theorem marshalJSON_unmarshalJSON_roundtrip (ss : SecurityScheme)
    (hext : ∀ kv ∈ ss.extensionPairs, kv.1 ∉ securitySchemeFieldNames) :
    ∃ ss', SecurityScheme.UnmarshalJSON ss.MarshalJSON = .ok ss' ∧
      ss'.Ref = ss.Ref ∧ ss'.Description = ss.Description ∧
      ss'.Type' = ss.Type' ∧ ss'.In' = ss.In' ∧ ss'.Name = ss.Name ∧
      ss'.Flow = ss.Flow ∧ ss'.AuthorizationURL = ss.AuthorizationURL ∧
      ss'.TokenURL = ss.TokenURL ∧ ss'.Scopes = ss.Scopes ∧
      ss'.SchemeTags = ss.SchemeTags ∧
      ss'.extensionPairs = ss.extensionPairs := by
  unfold SecurityScheme.UnmarshalJSON
  rw [decodeStructFields_marshalJSON ss hext]
  refine ⟨_, rfl, rfl, rfl, rfl, rfl, rfl, rfl, rfl, rfl, rfl, rfl, ?_⟩
  simp [SecurityScheme.extensionPairs, copyEntries_eq,
    decodeExtensionMap_marshalJSON ss hext]

/-- Witness for C1 on a concrete scheme with one extension member. -/
theorem marshalJSON_unmarshalJSON_roundtrip_witness :
    (∀ kv ∈ sampleScheme.extensionPairs,
       kv.1 ∉ securitySchemeFieldNames) ∧
    (∃ ss', SecurityScheme.UnmarshalJSON sampleScheme.MarshalJSON = .ok ss' ∧
      ss'.Ref = sampleScheme.Ref ∧
      ss'.Description = sampleScheme.Description ∧
      ss'.Type' = sampleScheme.Type' ∧ ss'.In' = sampleScheme.In' ∧
      ss'.Name = sampleScheme.Name ∧ ss'.Flow = sampleScheme.Flow ∧
      ss'.AuthorizationURL = sampleScheme.AuthorizationURL ∧
      ss'.TokenURL = sampleScheme.TokenURL ∧
      ss'.Scopes = sampleScheme.Scopes ∧
      ss'.SchemeTags = sampleScheme.SchemeTags ∧
      ss'.extensionPairs = sampleScheme.extensionPairs) :=
  ⟨by decide, marshalJSON_unmarshalJSON_roundtrip sampleScheme (by decide)⟩

/-- Decoding the declared fixed fields ignores an inserted member whose key
is not a declared wire name. -/
theorem decodeStructFields_insert (l1 l2 : List (String × Json)) (k : String)
    (v : Json) (hk : k ∉ securitySchemeFieldNames) :
    decodeStructFields (l1 ++ (k, v) :: l2) =
      decodeStructFields (l1 ++ l2) := by
  simp only [securitySchemeFieldNames, List.mem_cons, List.not_mem_nil,
    or_false, not_or] at hk
  obtain ⟨h1, h2, h3, h4, h5, h6, h7, h8, h9, h10⟩ := hk
  unfold decodeStructFields
  rw [lookupKey_middle _ _ _ _ _ h1, lookupKey_middle _ _ _ _ _ h2,
    lookupKey_middle _ _ _ _ _ h3, lookupKey_middle _ _ _ _ _ h4,
    lookupKey_middle _ _ _ _ _ h5, lookupKey_middle _ _ _ _ _ h6,
    lookupKey_middle _ _ _ _ _ h7, lookupKey_middle _ _ _ _ _ h8,
    lookupKey_middle _ _ _ _ _ h9, lookupKey_middle _ _ _ _ _ h10]

/-- The leftover-member computation keeps an inserted member whose key is
not a declared wire name, in place. -/
theorem decodeExtensionMap_insert (l1 l2 : List (String × Json)) (k : String)
    (v : Json) (hk : k ∉ securitySchemeFieldNames) :
    decodeExtensionMap (l1 ++ (k, v) :: l2) =
      decodeExtensionMap l1 ++ (k, v) :: decodeExtensionMap l2 := by
  unfold decodeExtensionMap
  simp [List.filter_append, List.filter_cons, hk]

/-- C2: decoding an object containing a member whose key is not a declared
fixed-field wire name never fails because of that member — the decode
succeeds or fails exactly as it does without it — and on success that member
appears in the resulting Extensions mapping with its decoded value
unchanged, the fixed fields being those decoded without it. -/
theorem unknownKey_tolerance (l1 l2 : List (String × Json)) (k : String)
    (v : Json) (hk : k ∉ securitySchemeFieldNames) :
    (∀ e, SecurityScheme.UnmarshalJSON (l1 ++ l2) = .error e →
       SecurityScheme.UnmarshalJSON (l1 ++ (k, v) :: l2) = .error e) ∧
    (∀ ss, SecurityScheme.UnmarshalJSON (l1 ++ l2) = .ok ss →
       ∃ ss', SecurityScheme.UnmarshalJSON (l1 ++ (k, v) :: l2) = .ok ss' ∧
         (k, v) ∈ ss'.extensionPairs ∧
         ss'.Ref = ss.Ref ∧ ss'.Description = ss.Description ∧
         ss'.Type' = ss.Type' ∧ ss'.In' = ss.In' ∧ ss'.Name = ss.Name ∧
         ss'.Flow = ss.Flow ∧ ss'.AuthorizationURL = ss.AuthorizationURL ∧
         ss'.TokenURL = ss.TokenURL ∧ ss'.Scopes = ss.Scopes ∧
         ss'.SchemeTags = ss.SchemeTags) := by
  constructor
  · intro e he
    unfold SecurityScheme.UnmarshalJSON at he ⊢
    rw [decodeStructFields_insert l1 l2 k v hk]
    cases hd : decodeStructFields (l1 ++ l2) with
    | error e2 => rw [hd] at he; exact he
    | ok f => rw [hd] at he; exact Except.noConfusion he
  · intro ss hss
    unfold SecurityScheme.UnmarshalJSON at hss ⊢
    rw [decodeStructFields_insert l1 l2 k v hk]
    cases hd : decodeStructFields (l1 ++ l2) with
    | error e => rw [hd] at hss; exact Except.noConfusion hss
    | ok f =>
      rw [hd] at hss
      injection hss with hss
      subst hss
      refine ⟨_, rfl, ?_, rfl, rfl, rfl, rfl, rfl, rfl, rfl, rfl, rfl, rfl⟩
      simp [SecurityScheme.extensionPairs, copyEntries_eq,
        decodeExtensionMap_insert l1 l2 k v hk]

/-- Witness for C2: inserting the member x-foo after one fixed-field
member. -/
theorem unknownKey_tolerance_witness :
    "x-foo" ∉ securitySchemeFieldNames ∧
    ((∀ e, SecurityScheme.UnmarshalJSON (sampleObj ++ []) = .error e →
        SecurityScheme.UnmarshalJSON
          (sampleObj ++ ("x-foo", Json.bool true) :: []) = .error e) ∧
     (∀ ss, SecurityScheme.UnmarshalJSON (sampleObj ++ []) = .ok ss →
        ∃ ss', SecurityScheme.UnmarshalJSON
            (sampleObj ++ ("x-foo", Json.bool true) :: []) = .ok ss' ∧
          ("x-foo", Json.bool true) ∈ ss'.extensionPairs ∧
          ss'.Ref = ss.Ref ∧ ss'.Description = ss.Description ∧
          ss'.Type' = ss.Type' ∧ ss'.In' = ss.In' ∧ ss'.Name = ss.Name ∧
          ss'.Flow = ss.Flow ∧ ss'.AuthorizationURL = ss.AuthorizationURL ∧
          ss'.TokenURL = ss.TokenURL ∧ ss'.Scopes = ss.Scopes ∧
          ss'.SchemeTags = ss.SchemeTags)) :=
  ⟨by decide,
   unknownKey_tolerance sampleObj [] "x-foo" (Json.bool true) (by decide)⟩

/-- C9: `MarshalJSON` writes every extension member first and only
afterwards the fixed struct fields: the output is the extension pairs
followed by members that all carry declared fixed-field wire names. -/
theorem marshalJSON_order (ss : SecurityScheme) :
    ss.MarshalJSON = ss.extensionPairs ++ encodeStructFields ss ∧
    ∀ kv ∈ encodeStructFields ss, kv.1 ∈ securitySchemeFieldNames :=
  ⟨rfl, encodeStructFields_keys ss⟩

/-- C10: every successful `UnmarshalJSON` leaves `Extensions` a non-nil map
holding exactly the leftover members (the entry-by-entry copy of the
decoder's leftover-member map); with zero leftover members it is the empty
non-nil map, not the nil map of a freshly constructed record. -/
theorem unmarshalJSON_extensions_nonNil (obj : List (String × Json))
    (ss : SecurityScheme) (h : SecurityScheme.UnmarshalJSON obj = .ok ss) :
    ss.Props.Extensions = some (decodeExtensionMap obj) ∧
    (decodeExtensionMap obj = [] → ss.Props.Extensions = some []) := by
  unfold SecurityScheme.UnmarshalJSON at h
  cases hd : decodeStructFields obj with
  | error e => rw [hd] at h; exact Except.noConfusion h
  | ok f =>
    rw [hd] at h
    injection h with h
    subst h
    exact ⟨by simp [copyEntries_eq], fun he => by simp [copyEntries_eq, he]⟩

/-- Witness for C10 on a concrete object with one fixed-field member and no
extension members. -/
theorem unmarshalJSON_extensions_nonNil_witness :
    SecurityScheme.UnmarshalJSON sampleObj =
      .ok { Props := { Extensions := some [] }, Type' := "basic" } ∧
    (({ Props := { Extensions := some [] },
        Type' := "basic" } : SecurityScheme).Props.Extensions =
      some (decodeExtensionMap sampleObj) ∧
     (decodeExtensionMap sampleObj = [] →
       ({ Props := { Extensions := some [] },
          Type' := "basic" } : SecurityScheme).Props.Extensions = some [])) :=
  ⟨rfl, unmarshalJSON_extensions_nonNil sampleObj _ rfl⟩
